import Mathlib

/-!
# Verification of the `bad-synth` voice/envelope engine

Shallow embedding of `src/main.rs` (a real-time polyphonic MIDI
synthesizer) and proofs about the claims of its specification.

Modelling conventions:
* `usize` values are `ℕ`; `i64` deltas are `ℤ`.
* `f32` arithmetic is modelled over `ℚ` exactly (the claims under
  scrutiny are structural, not about rounding); the note-frequency
  formula `2f32.powf((n-69)/12) * 440` is modelled over `ℝ`.
* Rust's `x as usize` on a nonnegative float is truncation, modelled
  by `Int.floor` followed by `Int.toNat`.
* The `HashMap<u8, Voice>` registry is an association list, the
  `HashSet<u8>` of sustained notes a duplicate-free list.
* The 1 ms `periodic_access` envelope callback is modelled as a step
  function on an explicit envelope state; between two callbacks the
  `Wave` source produces `SAMPLE_RATE / 1000 = 44` samples, so each
  step advances `num_sample` by 44 (rodio runs the callback before the
  first sample of each period).
* The `unreachable!()` / `Option::unwrap` panics inside the MIDI
  callback are modelled with `Except PanicKind`.
-/

/-- `const SAMPLE_RATE: usize = 44_000;` -/
def SAMPLE_RATE : ℕ := 44000

/-- `const SAMPLE_RATE_MS: usize = SAMPLE_RATE / 1000;` -/
def SAMPLE_RATE_MS : ℕ := SAMPLE_RATE / 1000

/-- The four oscillator shapes (`enum WaveType`). -/
inductive WaveType where
  | Sine
  | Square
  | Saw
  | Triangle
deriving DecidableEq, Repr

/-- `struct Adsr` — attack/decay/release in milliseconds, sustain a
fraction.  `usize` durations become `ℕ`, the `f32` sustain level `ℚ`. -/
structure Adsr where
  attack : ℕ
  decay : ℕ
  sustain : ℚ
  release : ℕ
deriving DecidableEq, Repr

/-- Initial value of the `ADSR` global:
`Adsr{attack:10, decay:10, sustain:1.0, release:10}`. -/
def initAdsr : Adsr := { attack := 10, decay := 10, sustain := 1, release := 10 }

/-! ## Envelope step sizes (`Voice::play`, lines 154–162)

The code computes them with no clamping of the durations:
`attack_num_samples = attack * SAMPLE_RATE_MS` and
`attack_step = 1.0 / attack_num_samples as f32`, and similarly for
decay and release. -/

/-- `let attack_num_samples = attack * SAMPLE_RATE_MS;` -/
def attack_num_samples (p : Adsr) : ℕ := p.attack * SAMPLE_RATE_MS

/-- `let decay_num_samples = decay * SAMPLE_RATE_MS;` -/
def decay_num_samples (p : Adsr) : ℕ := p.decay * SAMPLE_RATE_MS

/-- `let release_num_samples = release * SAMPLE_RATE_MS;` -/
def release_num_samples (p : Adsr) : ℕ := p.release * SAMPLE_RATE_MS

/-- `let attack_step = 1.0 / attack_num_samples as f32;` -/
def attack_step (p : Adsr) : ℚ := 1 / (attack_num_samples p : ℚ)

/-- `let decay_step = (1.0 - sustain) / decay_num_samples as f32;` -/
def decay_step (p : Adsr) : ℚ := (1 - p.sustain) / (decay_num_samples p : ℚ)

/-- `let release_step = sustain / release_num_samples as f32;` -/
def release_step (p : Adsr) : ℚ := p.sustain / (release_num_samples p : ℚ)

/-- Spec-side comparison definition (`InvalidEnvelopeConfiguration`
guard): the divisor the spec asks for, with the duration clamped to a
minimum of one sample before the step size is derived. -/
def clamped_attack_num_samples (p : Adsr) : ℕ := max 1 (p.attack * SAMPLE_RATE_MS)

/-! ## Envelope state machine (`Voice::play`, lines 166–190)

State of the closure passed to `periodic_access(Duration::from_millis(1))`
together with the `num_sample` counter of the underlying `Wave`. -/

/-- Mutable state visible to the 1 ms envelope callback: the captured
`volume` and `num_sample_released` variables, the wave's `num_sample`
counter, and whether `src.stop()` has run. -/
structure EnvSt where
  volume : ℚ
  num_sample : ℕ
  num_sample_released : ℕ
  stopped : Bool
deriving DecidableEq, Repr

/-- Envelope state when `Voice::play` starts: `volume = 0.0`,
`num_sample_released = 0`, no samples produced yet. -/
def envInit : EnvSt := { volume := 0, num_sample := 0, num_sample_released := 0, stopped := false }

/-- One execution of the closure body of the 1 ms `periodic_access`
(lines 170–189).  `releasing` is the value read from the shared
`releasing` flag. -/
def envTick (p : Adsr) (releasing : Bool) (s : EnvSt) : EnvSt :=
  if releasing = true ∧ s.num_sample_released = 0 then
    { s with num_sample_released := s.num_sample }
  else if releasing = true then
    if s.num_sample - s.num_sample_released < release_num_samples p then
      { s with volume := s.volume - release_step p }
    else
      { s with stopped := true }
  else if s.num_sample < attack_num_samples p then
    { s with volume := s.volume + attack_step p }
  else if s.num_sample - attack_num_samples p < decay_num_samples p then
    { s with volume := s.volume - decay_step p }
  else
    s

/-- One 1 ms period of the render loop: run the envelope callback, then
the wave produces `SAMPLE_RATE_MS` samples.  Once the source has been
stopped the sink drains it and no further callbacks run. -/
def envStep (p : Adsr) (releasing : Bool) (s : EnvSt) : EnvSt :=
  if s.stopped then s
  else
    let t := envTick p releasing s
    { t with num_sample := t.num_sample + SAMPLE_RATE_MS }

/-- `n` 1 ms periods of the render loop with a constant value of the
`releasing` flag. -/
def envRun (p : Adsr) (releasing : Bool) (n : ℕ) (s : EnvSt) : EnvSt :=
  (envStep p releasing)^[n] s

@[simp]
theorem sample_rate_ms_eq : SAMPLE_RATE_MS = 44 := rfl

/-- Closed form of the attack phase: as long as the wave's sample count
stays below `attack_num_samples`, every 1 ms tick adds exactly
`attack_step` to the volume, so after `k` ticks the volume is
`k * attack_step` and `44 * k` samples have been produced. -/
theorem envRun_attack (p : Adsr) :
    ∀ k : ℕ, 44 * k ≤ attack_num_samples p →
      envRun p false k envInit =
        { volume := k * attack_step p, num_sample := 44 * k,
          num_sample_released := 0, stopped := false } := by
  intro k
  induction k with
  | zero => intro _; simp [envRun, envInit]
  | succ n ih =>
    intro h
    have hn : 44 * n ≤ attack_num_samples p := by omega
    have hlt : 44 * n < attack_num_samples p := by omega
    rw [envRun, Function.iterate_succ_apply', ← envRun, ih hn]
    simp only [envStep, envTick, if_neg, hlt, if_pos, sample_rate_ms_eq]
    norm_num
    constructor
    · ring
    · omega

/-- C2 (theorem, code_bug).  The envelope amplitude starts at 0 and each
1 ms tick of the attack phase adds `attack_step = 1 / attack_samples`,
but the attack phase lasts only `attack_ms` ticks (the `num_sample`
comparison is in samples while the increment happens once per
millisecond), so with the default `attack = 10` ms the amplitude after
the full attack duration is `10 * (1/440) = 1/44 ≈ 0.023`, nowhere near
the claimed `1.0`. -/
theorem c2_attack_never_reaches_one :
    envInit.volume = 0 ∧
    attack_step initAdsr = 1 / 440 ∧
    (envRun initAdsr false 1 envInit).volume = 1 / 440 ∧
    (envRun initAdsr false 10 envInit).volume = 1 / 44 ∧
    (1 : ℚ) / 44 < 1 / 10 := by
  have hstep : attack_step initAdsr = 1 / 440 := by
    norm_num [attack_step, attack_num_samples, initAdsr]
  have h1 := envRun_attack initAdsr 1 (by decide)
  have h10 := envRun_attack initAdsr 10 (by decide)
  refine ⟨rfl, hstep, ?_, ?_, by norm_num⟩
  · rw [h1]; rw [hstep]; norm_num
  · rw [h10]; rw [hstep]; norm_num

/-! ## Oscillator (`Wave::next`, lines 48–79) -/

/-- Rust `e as usize` on a nonnegative float: truncation toward zero
(and saturation at 0 for negative values), i.e. `⌊e⌋` clipped to `ℕ`. -/
def ratToUsize (q : ℚ) : ℕ := (Int.floor q).toNat

/-- `let period = 1.0 / self.freq * SAMPLE_RATE as f32;` -/
def wavePeriod (freq : ℚ) : ℚ := 1 / freq * (SAMPLE_RATE : ℚ)

/-- The `WaveType::Square` arm of `Wave::next` (lines 62–68): the value
of the sample whose (post-increment) `num_sample` counter is `n`:
`if num_sample % (period as usize) <= (period / 2.0) as usize {1} else {-1}`. -/
def squareNext (freq : ℚ) (n : ℕ) : ℚ :=
  if n % ratToUsize (wavePeriod freq) ≤ ratToUsize (wavePeriod freq / 2) then 1 else -1

/-- The spec's wording for the square arm: `+1` exactly for the samples
in the strict first half of each period, by sample count. -/
def squareFirstHalfClaim (freq : ℚ) (n : ℕ) : Prop :=
  squareNext freq n = 1 ↔ n % ratToUsize (wavePeriod freq) < ratToUsize (wavePeriod freq) / 2

/-- C9 (counterexample).  At `freq = 11000` the period is exactly 4
samples, whose first half is the sample offsets `{0, 1}`; the code's
`<=` comparison also emits `+1` at offset `2`, which lies in the second
half.  So the square wave is `+1` for 3 of every 4 samples, not for the
first half only. -/
theorem c9_square_not_first_half : ¬ squareFirstHalfClaim 11000 2 := by
  have hp : wavePeriod 11000 = 4 := by norm_num [wavePeriod, SAMPLE_RATE]
  have hh : wavePeriod 11000 / 2 = 2 := by rw [hp]; norm_num
  simp only [squareFirstHalfClaim, squareNext, hp, hh, ratToUsize]
  norm_num
  decide

/-- Helper: the floored half-period equals half the floored period. -/
theorem ratToUsize_half (q : ℚ) : ratToUsize (q / 2) = ratToUsize q / 2 := by
  simp only [ratToUsize, Int.floor_toNat]
  exact Nat.floor_div_ofNat q 2

/-- C9 (theorem, corrected).  For every positive frequency that fits in
the sample rate (so the truncated period is at least one sample), the
square oscillator only emits `+1` or `-1`, and it emits `+1` exactly
for the samples whose offset in the (truncated) period is at most
`⌊period⌋ / 2` — i.e. the first half of the period **plus the boundary
sample**, one `+1` sample more per period than the spec's strict first
half. -/
theorem c9_square_amended (freq : ℚ) (n : ℕ) (hpos : 0 < freq) (hle : freq ≤ 44000) :
    (squareNext freq n = 1 ∨ squareNext freq n = -1) ∧
    (squareNext freq n = 1 ↔ n % ratToUsize (wavePeriod freq) ≤ ratToUsize (wavePeriod freq) / 2) ∧
    1 ≤ ratToUsize (wavePeriod freq) := by
  refine ⟨?_, ?_, ?_⟩
  · unfold squareNext
    split
    · left; rfl
    · right; rfl
  · rw [squareNext, ratToUsize_half]
    split
    · simp [*]
    · simp only [iff_false_intro (by assumption : ¬ _)]
      norm_num
  · have h1 : (1 : ℚ) ≤ wavePeriod freq := by
      rw [wavePeriod, one_div, inv_mul_eq_div, le_div_iff₀ hpos, one_mul]
      exact_mod_cast hle
    have h2 : (1 : ℤ) ≤ Int.floor (wavePeriod freq) := by
      rw [Int.le_floor]
      exact_mod_cast h1
    simp only [ratToUsize]
    omega

/-- C9 witness: at `freq = 11000`, sample 1 — the hypotheses of
`c9_square_amended` hold and the amended boundary rule applies. -/
theorem c9_square_amended_witness :
    (0 : ℚ) < 11000 ∧ (11000 : ℚ) ≤ 44000 ∧
      ((squareNext 11000 1 = 1 ∨ squareNext 11000 1 = -1) ∧
        (squareNext 11000 1 = 1 ↔ 1 % ratToUsize (wavePeriod 11000) ≤ ratToUsize (wavePeriod 11000) / 2) ∧
        1 ≤ ratToUsize (wavePeriod 11000)) :=
  ⟨by norm_num, by norm_num, c9_square_amended 11000 1 (by norm_num) (by norm_num)⟩

/-- Closed form of the release ramp after the capture tick: starting
from a state whose `num_sample_released` was captured as `N > 0` and
which is `j ≥ 1` ticks past the capture, each further tick subtracts
exactly `release_step` while the elapsed sample count stays below
`release_num_samples`. -/
theorem envRun_release (p : Adsr) (N : ℕ) (hN : 0 < N) :
    ∀ (k : ℕ) (V : ℚ) (j : ℕ), 1 ≤ j → j + k ≤ p.release →
      envRun p true k
          { volume := V, num_sample := N + 44 * j, num_sample_released := N, stopped := false } =
        { volume := V - k * release_step p, num_sample := N + 44 * (j + k),
          num_sample_released := N, stopped := false } := by
  intro k
  induction k with
  | zero => intro V j _ _; simp [envRun]
  | succ n ih =>
    intro V j hj hjn
    have hN0 : ¬ (N = 0) := by omega
    have helapsed : N + 44 * j - N = 44 * j := by omega
    have hlt : 44 * j < release_num_samples p := by
      have : j < p.release := by omega
      simp only [release_num_samples, sample_rate_ms_eq]
      omega
    have hstep1 : envStep p true
        { volume := V, num_sample := N + 44 * j, num_sample_released := N, stopped := false } =
        { volume := V - release_step p, num_sample := N + 44 * (j + 1),
          num_sample_released := N, stopped := false } := by
      simp [envStep, envTick, hN0, helapsed, hlt]
      omega
    rw [envRun, Function.iterate_succ_apply, ← envRun, hstep1,
      ih (V - release_step p) (j + 1) (by omega) (by omega)]
    have h1 : V - release_step p - n * release_step p = V - (n + 1 : ℕ) * release_step p := by
      push_cast; ring
    have h2 : j + 1 + n = j + (n + 1) := by omega
    rw [h1, h2]

/-- C3 (theorem, confirmed).  Once the `releasing` flag is set: the
first tick captures the sample count (amplitude unchanged), every
subsequent tick before the release duration elapses subtracts exactly
`release_step = sustain / release_samples` — independent of the volume
`s.volume` actually reached when release began — and on the first tick
whose elapsed sample count reaches `release_num_samples` the source is
stopped (`src.stop()`, which drains the sink and frees the slot).  The
stop happens `release + 1` ticks ≈ `release` ms (±1 tick) after the
flag is observed. -/
theorem c3_release_ramp (p : Adsr) (s : EnvSt)
    (hrel : 0 < p.release) (hns : 0 < s.num_sample)
    (hcap : s.num_sample_released = 0) (hstop : s.stopped = false) :
    (envStep p true s).volume = s.volume ∧
    (∀ k, k + 1 ≤ p.release →
      (envRun p true (1 + k) s).volume = s.volume - k * release_step p) ∧
    (envRun p true p.release s).stopped = false ∧
    (envRun p true (p.release + 1) s).stopped = true := by
  obtain ⟨V, N, nsr, st⟩ := s
  simp only at hns hcap hstop
  subst hcap; subst hstop
  have hcapture : envStep p true { volume := V, num_sample := N, num_sample_released := 0, stopped := false } =
      { volume := V, num_sample := N + 44 * 1, num_sample_released := N, stopped := false } := by
    simp [envStep, envTick]
  have hrun : ∀ k, envRun p true (1 + k) { volume := V, num_sample := N, num_sample_released := 0, stopped := false } =
      envRun p true k { volume := V, num_sample := N + 44 * 1, num_sample_released := N, stopped := false } := by
    intro k
    rw [Nat.add_comm 1 k, envRun, Function.iterate_succ_apply, ← envRun, hcapture]
  refine ⟨by rw [hcapture], ?_, ?_, ?_⟩
  · intro k hk
    rw [hrun k, envRun_release p N hns k V 1 le_rfl (by omega)]
  · have h1 : p.release = 1 + (p.release - 1) := by omega
    rw [h1, hrun, envRun_release p N hns (p.release - 1) V 1 le_rfl (by omega)]
  · have h1 : p.release + 1 = (1 + (p.release - 1)) + 1 := by omega
    rw [h1, envRun, Function.iterate_succ_apply', ← envRun, hrun,
      envRun_release p N hns (p.release - 1) V 1 le_rfl (by omega)]
    have hN0 : ¬ (N = 0) := by omega
    have helapsed : N + 44 * (1 + (p.release - 1)) - N = 44 * p.release := by omega
    have hnlt : ¬ (44 * p.release < release_num_samples p) := by
      simp only [release_num_samples, sample_rate_ms_eq]
      omega
    simp [envStep, envTick, hN0, helapsed, hnlt]

/-- C5 (theorem, code_bug).  No clamping of a zero-length duration
happens before the step sizes are derived: a zero attack (or release)
gives a zero divisor, whereas the spec's guarded divisor is 1.  In the
Rust source the corresponding `f32` divisions `1.0 / 0.0` and
`sustain / 0.0` yield infinity, which the volume then ramps by. -/
theorem c5_no_zero_duration_clamp :
    attack_num_samples { initAdsr with attack := 0 } = 0 ∧
    release_num_samples { initAdsr with release := 0 } = 0 ∧
    decay_num_samples { initAdsr with decay := 0 } = 0 ∧
    clamped_attack_num_samples { initAdsr with attack := 0 } = 1 := by
  decide

/-! ## Control panel (`main`, lines 223–259)

Ten GPIO pins each get a rising-edge `EventListener`.  Pins 17/27/22/5
select the waveform, pins 6/26/23/24 select which ADSR parameter is
"active" (`ENV_TYPE`), and pins 25/16 increment/decrement the active
parameter. -/

/-- The three `lazy_static` globals the panel callback mutates:
`WAVE_TYPE`, `ENV_TYPE` and `ADSR`. -/
structure Globals where
  wave_type : WaveType
  env_type : ℕ
  adsr : Adsr
deriving DecidableEq, Repr

/-- Lines 241–250: the mutation the pins-25/16 branch performs on the
`Adsr` value it read out of the `ADSR` mutex.  The guard tests the
**pre-update** value, so a value of 990 may be stepped to 1000 and a
value of 10 down to 0.  (`(x as i64 + diff) as usize` is `Int.toNat`
here; inside the guard the sum is never negative.) -/
def panelAdjustedAdsr (adsr : Adsr) (env_type : ℕ) (diff : ℤ) : Adsr :=
  if env_type = 0 then
    if 10 ≤ adsr.attack ∧ adsr.attack ≤ 990 then
      { adsr with attack := ((adsr.attack : ℤ) + diff).toNat }
    else adsr
  else if env_type = 1 then
    if 10 ≤ adsr.decay ∧ adsr.decay ≤ 990 then
      { adsr with decay := ((adsr.decay : ℤ) + diff).toNat }
    else adsr
  else if env_type = 3 then
    if 10 ≤ adsr.release ∧ adsr.release ≤ 990 then
      { adsr with release := ((adsr.release : ℤ) + diff).toNat }
    else adsr
  else adsr

/-- The rising-edge callback installed in `main` (lines 227–256),
acting on the globals.  Crucially, the pins-25/16 branch does
`let mut adsr = *ADSR.lock().unwrap();` — it copies the `Adsr` out of
the mutex, mutates the **copy**, and never writes it back, so the
shared `ADSR` global is left untouched. -/
def panelCallback (pin : ℕ) (g : Globals) : Globals :=
  if pin = 17 then { g with wave_type := WaveType.Sine }
  else if pin = 27 then { g with wave_type := WaveType.Triangle }
  else if pin = 22 then { g with wave_type := WaveType.Square }
  else if pin = 5 then { g with wave_type := WaveType.Saw }
  else if pin = 6 then { g with env_type := 0 }
  else if pin = 26 then { g with env_type := 1 }
  else if pin = 23 then { g with env_type := 2 }
  else if pin = 24 then { g with env_type := 3 }
  else if pin = 25 ∨ pin = 16 then
    if g.env_type = 0 ∨ g.env_type = 1 ∨ g.env_type = 3 then
      let diff : ℤ := if pin = 25 then 10 else -10
      -- the locally mutated copy, dropped on the next line
      let _adsr := panelAdjustedAdsr g.adsr g.env_type diff
      g
    else g
  else g

set_option maxHeartbeats 1000000 in
/-- C1 (theorem, code_bug).  No control-panel trigger ever changes the
process-wide ADSR settings (the callback mutates a copy and drops it),
so the active parameter changes by 0, never by ±10 ms; and even the
computed-but-discarded update escapes the [10, 990] range at both ends,
because the guard tests the value before the step is applied. -/
theorem c1_panel_never_updates_adsr :
    (∀ (g : Globals) (pin : ℕ), (panelCallback pin g).adsr = g.adsr) ∧
    (panelAdjustedAdsr { initAdsr with attack := 990 } 0 10).attack = 1000 ∧
    (panelAdjustedAdsr initAdsr 0 (-10)).attack = 0 := by
  refine ⟨?_, by decide, by decide⟩
  intro g pin
  unfold panelCallback
  repeat' split
  all_goals rfl

/-! ## MIDI event handling (`midi_callback`, lines 270–374)

The callback owns (behind mutexes) the `playing_notes: HashMap<u8, Voice>`
registry, the `sustained_notes: HashSet<u8>` set and the global `SINKS`
array.  The registry is modelled as an association list, the set as a
list without duplicates, and each sink by its observable state.  The
two reachable panics are modelled with `Except PanicKind`. -/

/-- The panics reachable inside `midi_callback`:
`unreachable!()` (line 358, a sustain-control value other than 127/0)
and `playing_notes.get(note_midi).unwrap()` on `None` (line 352). -/
inductive PanicKind where
  | unreachableCode
  | unwrapNone
deriving DecidableEq, Repr

/-- Console output produced inside `midi_callback`:
`dbg!("max polyphony hit")` and the two `println!` calls that show the
raw message (mode-change branch, line 338, and the catch-all branch,
line 371). -/
inductive LogEvent where
  | maxPolyphony
  | modeChangeShown
  | unhandledShown
deriving DecidableEq, Repr

/-- A decoded 3-byte MIDI message: `message[0]`, `message[1]`,
`message[2]`. -/
structure MidiMsg where
  status : ℕ
  data1 : ℕ
  data2 : ℕ
deriving DecidableEq, Repr

/-- `fn midi_note_to_freq(midi_note: u8) -> f32`:
`2f32.powf((midi_note as f32 - 69.0) / 12.0) * 440.0`, over `ℝ`. -/
noncomputable def midi_note_to_freq (midi_note : ℕ) : ℝ :=
  (2 : ℝ) ^ (((midi_note : ℝ) - 69) / 12) * 440

/-- `struct Voice`.  The `Arc<Mutex<_>>` fields (`freq`, `releasing`)
are the cross-thread-visible state; here they are plain fields updated
functionally. -/
structure Voice where
  freq : ℝ
  wave_type : WaveType
  amp_env : Adsr
  sink_idx : ℕ
  releasing : Bool

/-- Observable state of one slot of the global `SINKS` array:
`empty()` (idle), holding a sound (`playing`), or `is_paused()`. -/
inductive SinkSt where
  | idle
  | playing
  | paused
deriving DecidableEq, Repr

/-- `const MAX_POLYPHONY: usize = 16;` -/
def MAX_POLYPHONY : ℕ := 16

/-- The state the MIDI callback reads and mutates. `wave_type` and
`adsr` are the `WAVE_TYPE` / `ADSR` globals it samples on note-on. -/
structure SynthSt where
  sinks : List SinkSt
  playing : List (ℕ × Voice)
  sustained : List ℕ
  log : List LogEvent
  wave_type : WaveType
  adsr : Adsr

/-- `get_sink(i)`'s observable state. -/
def sinkAt (sinks : List SinkSt) (i : ℕ) : SinkSt := sinks.getD i SinkSt.idle

/-- Index of the first sink satisfying `p`
(`for i in 0..MAX_POLYPHONY { if p(get_sink(i)) { ... } }`). -/
def firstIdx (p : SinkSt → Bool) : List SinkSt → Option ℕ
  | [] => none
  | s :: rest => if p s then some 0 else (firstIdx p rest).map (· + 1)

/-- Slot allocation (lines 289–310): first sink that is `empty()`;
failing that, the first sink that `is_paused()` (which is then stopped
and recreated for reuse); otherwise `None`. -/
def allocate (sinks : List SinkSt) : Option ℕ :=
  match firstIdx (fun s => s == SinkSt.idle) sinks with
  | some i => some i
  | none => firstIdx (fun s => s == SinkSt.paused) sinks

/-- `HashMap::remove` on the registry. -/
def removeKey (d1 : ℕ) (pl : List (ℕ × Voice)) : List (ℕ × Voice) :=
  pl.filter (fun kv => kv.1 != d1)

/-- Note-on (status `144..=159`, lines 285–324).  An already-registered
note re-triggers its own sink; otherwise a slot is allocated and a new
`Voice` built from the current `WAVE_TYPE`/`ADSR` globals is started
and registered; if allocation fails the note is dropped with a log
line. -/
noncomputable def noteOn (d1 : ℕ) (st : SynthSt) : SynthSt :=
  match List.lookup d1 st.playing with
  | some v => { st with sinks := st.sinks.set v.sink_idx SinkSt.playing }
  | none =>
    match allocate st.sinks with
    | some sink_idx =>
      let v : Voice :=
        { freq := midi_note_to_freq d1, wave_type := st.wave_type,
          amp_env := st.adsr, sink_idx := sink_idx, releasing := false }
      { st with sinks := st.sinks.set sink_idx SinkSt.playing,
                playing := (d1, v) :: st.playing }
    | none => { st with log := LogEvent.maxPolyphony :: st.log }

/-- Note-off (status `128..=143`, lines 327–335).  A sustained note is
left completely untouched; otherwise the registered voice's `releasing`
flag is set (`note.stop()` — the voice then lives on outside the
registry until its release ramp finishes) and the registry entry is
removed. -/
def noteOff (d1 : ℕ) (st : SynthSt) : SynthSt :=
  match List.lookup d1 st.playing with
  | some _ =>
    if d1 ∈ st.sustained then st
    else { st with playing := removeKey d1 st.playing }
  | none => st

/-- `HashSet::insert`. -/
def insertSet (n : ℕ) (s : List ℕ) : List ℕ := if n ∈ s then s else n :: s

/-- Sustain engage (lines 343–349): every registered note whose sink is
not paused joins the sustained set. -/
def engageSustain (pl : List (ℕ × Voice)) (sinks : List SinkSt) (sus : List ℕ) : List ℕ :=
  pl.foldl
    (fun acc kv => if sinkAt sinks kv.2.sink_idx ≠ SinkSt.paused then insertSet kv.1 acc else acc)
    sus

/-- `note.stop()` applied to the registry entry for `n` (the registry
keeps holding the voice; only its shared `releasing` flag flips). -/
def setReleasing (n : ℕ) (pl : List (ℕ × Voice)) : List (ℕ × Voice) :=
  pl.map (fun kv => (kv.1, if kv.1 = n then { kv.2 with releasing := true } else kv.2))

/-- Sustain release (lines 350–356): for every sustained note, look its
voice up in the registry (`.unwrap()` — a missing entry panics) and
request release on it. -/
def stopSustained : List ℕ → List (ℕ × Voice) → Except PanicKind (List (ℕ × Voice))
  | [], pl => .ok pl
  | n :: rest, pl =>
    match List.lookup n pl with
    | some _ => stopSustained rest (setReleasing n pl)
    | none => .error PanicKind.unwrapNone

/-- Mode change (status `176..=191`, lines 337–361): print the message;
for controller 64 (sustain), value 127 engages, value 0 releases every
sustained voice and clears the set, and any other value hits
`unreachable!()`. -/
def modeChange (m : MidiMsg) (st : SynthSt) : Except PanicKind SynthSt :=
  let st1 := { st with log := LogEvent.modeChangeShown :: st.log }
  if m.data1 = 64 then
    if m.data2 = 127 then
      .ok { st1 with sustained := engageSustain st1.playing st1.sinks st1.sustained }
    else if m.data2 = 0 then
      match stopSustained st1.sustained st1.playing with
      | .ok pl => .ok { st1 with playing := pl, sustained := [] }
      | .error e => .error e
    else .error PanicKind.unreachableCode
  else .ok st1

/-- Pitch bend (status `224..=239`, lines 363–369): every registered
voice's shared target frequency is set to
`midi_note_to_freq(note) + (bend_factor - 64)`. -/
noncomputable def pitchBend (bend_factor : ℕ) (st : SynthSt) : SynthSt :=
  { st with
    playing := st.playing.map
      (fun kv => (kv.1, { kv.2 with freq := midi_note_to_freq kv.1 + ((bend_factor : ℝ) - 64) })) }

/-- `fn midi_callback` (lines 270–374). -/
noncomputable def midi_callback (m : MidiMsg) (st : SynthSt) : Except PanicKind SynthSt :=
  if 144 ≤ m.status ∧ m.status ≤ 159 then .ok (noteOn m.data1 st)
  else if 128 ≤ m.status ∧ m.status ≤ 143 then .ok (noteOff m.data1 st)
  else if 176 ≤ m.status ∧ m.status ≤ 191 then modeChange m st
  else if 224 ≤ m.status ∧ m.status ≤ 239 then .ok (pitchBend m.data2 st)
  else .ok { st with log := LogEvent.unhandledShown :: st.log }

/-- State right after `run()` has created the 16 sinks, before any
event: all slots idle, no registered or sustained notes, and the
`lazy_static` initial values of the globals. -/
def initSt : SynthSt :=
  { sinks := List.replicate MAX_POLYPHONY SinkSt.idle, playing := [], sustained := [],
    log := [], wave_type := WaveType.Triangle, adsr := initAdsr }

/-- C4 (theorem, code_bug).  A control-change message for the sustain
controller whose value is neither 127 nor 0 — e.g. `[176, 64, 64]`, a
half-pressed sustain pedal — is not logged-and-ignored: it reaches the
`unreachable!()` arm and panics the MIDI input thread. -/
theorem c4_sustain_value_panics :
    midi_callback { status := 176, data1 := 64, data2 := 64 } initSt =
      Except.error PanicKind.unreachableCode := rfl

/-! ## Association-list helper lemmas -/

theorem lookup_cons (a k : ℕ) (v : Voice) (l : List (ℕ × Voice)) :
    List.lookup a ((k, v) :: l) = if a = k then some v else List.lookup a l := by
  by_cases h : a = k
  · simp [List.lookup, h]
  · have hb : (a == k) = false := beq_eq_false_iff_ne.mpr h
    simp [List.lookup, hb, h]

theorem lookup_mem {a : ℕ} {v : Voice} {l : List (ℕ × Voice)} :
    List.lookup a l = some v → (a, v) ∈ l := by
  induction l with
  | nil => intro h; simp [List.lookup] at h
  | cons kv rest ih =>
    obtain ⟨k, w⟩ := kv
    rw [lookup_cons]
    by_cases h : a = k
    · subst h
      intro hv
      simp only [if_pos rfl] at hv
      cases hv
      exact List.mem_cons_self _ _
    · intro hv
      rw [if_neg h] at hv
      exact List.mem_cons_of_mem _ (ih hv)

theorem mem_lookup_isSome {a : ℕ} {v : Voice} {l : List (ℕ × Voice)} :
    (a, v) ∈ l → (List.lookup a l).isSome = true := by
  induction l with
  | nil => intro h; simp at h
  | cons kv rest ih =>
    obtain ⟨k, w⟩ := kv
    intro h
    rw [lookup_cons]
    by_cases hak : a = k
    · simp [hak]
    · rw [if_neg hak]
      rcases List.mem_cons.mp h with h1 | h1
      · exact absurd (congrArg Prod.fst h1) hak
      · exact ih h1

theorem lookup_map_values (f : ℕ → Voice → Voice) (n : ℕ) (pl : List (ℕ × Voice)) :
    List.lookup n (pl.map (fun kv => (kv.1, f kv.1 kv.2))) = (List.lookup n pl).map (f n) := by
  induction pl with
  | nil => simp [List.lookup]
  | cons kv rest ih =>
    obtain ⟨k, w⟩ := kv
    simp only [List.map_cons]
    rw [lookup_cons, lookup_cons]
    by_cases h : n = k
    · subst h; simp
    · simp [if_neg h, ih]

theorem lookup_removeKey {m d1 : ℕ} (pl : List (ℕ × Voice)) (h : m ≠ d1) :
    List.lookup m (removeKey d1 pl) = List.lookup m pl := by
  induction pl with
  | nil => simp [removeKey]
  | cons kv rest ih =>
    obtain ⟨k, w⟩ := kv
    by_cases hk : k = d1
    · subst hk
      have hb : ((k, w).1 != k) = false := by simp
      simp only [removeKey, List.filter_cons, hb, Bool.false_eq_true, if_false]
      rw [lookup_cons, if_neg (fun hmk => h (hmk.trans rfl))]
      exact ih
    · have hb : ((k, w).1 != d1) = true := by simpa using hk
      simp only [removeKey, List.filter_cons, hb, if_true]
      rw [lookup_cons, lookup_cons]
      by_cases hm : m = k
      · simp [hm]
      · rw [if_neg hm, if_neg hm]
        exact ih

theorem lookup_setReleasing (m n : ℕ) (pl : List (ℕ × Voice)) :
    List.lookup m (setReleasing n pl) =
      (List.lookup m pl).map (fun v => if m = n then { v with releasing := true } else v) :=
  lookup_map_values (fun k v => if k = n then { v with releasing := true } else v) m pl

theorem lookup_setReleasing_ne {m n : ℕ} (pl : List (ℕ × Voice)) (h : m ≠ n) :
    List.lookup m (setReleasing n pl) = List.lookup m pl := by
  rw [lookup_setReleasing]
  cases List.lookup m pl <;> simp [h]

theorem isSome_lookup_setReleasing (m n : ℕ) (pl : List (ℕ × Voice)) :
    (List.lookup m (setReleasing n pl)).isSome = (List.lookup m pl).isSome := by
  rw [lookup_setReleasing]
  cases List.lookup m pl <;> simp

/-! ## C8: pitch bend -/

theorem lookup_pitchBend (b : ℕ) (st : SynthSt) (n : ℕ) :
    List.lookup n (pitchBend b st).playing =
      (List.lookup n st.playing).map
        (fun v => { v with freq := midi_note_to_freq n + ((b : ℝ) - 64) }) :=
  lookup_map_values (fun k v => { v with freq := midi_note_to_freq k + ((b : ℝ) - 64) }) n
    st.playing

/-- C8 (theorem, confirmed).  A pitch-bend event (any status in
`224..=239`) with bend value `b` rewrites every registered voice's
target frequency to `midi_note_to_freq n + (b - 64)`, which is exactly
`440·2^((n-69)/12) + (b-64)`; in particular `b = 64` restores the
natural frequency and `b = 127` shifts it up by 63. -/
theorem c8_pitch_bend (st : SynthSt) (s d1 b : ℕ) (hs1 : 224 ≤ s) (hs2 : s ≤ 239)
    (n : ℕ) (v : Voice) (hv : List.lookup n st.playing = some v) :
    ∃ st', midi_callback { status := s, data1 := d1, data2 := b } st = .ok st' ∧
      ∃ w, List.lookup n st'.playing = some w ∧
        w.freq = 440 * (2 : ℝ) ^ (((n : ℝ) - 69) / 12) + ((b : ℝ) - 64) ∧
        midi_note_to_freq n = 440 * (2 : ℝ) ^ (((n : ℝ) - 69) / 12) ∧
        (b = 64 → w.freq = midi_note_to_freq n) ∧
        (b = 127 → w.freq = midi_note_to_freq n + 63) := by
  have c1 : ¬ (144 ≤ s ∧ s ≤ 159) := by omega
  have c2 : ¬ (128 ≤ s ∧ s ≤ 143) := by omega
  have c3 : ¬ (176 ≤ s ∧ s ≤ 191) := by omega
  have c4 : 224 ≤ s ∧ s ≤ 239 := ⟨hs1, hs2⟩
  have hcb : midi_callback { status := s, data1 := d1, data2 := b } st =
      .ok (pitchBend b st) := by
    unfold midi_callback
    rw [if_neg c1, if_neg c2, if_neg c3, if_pos c4]
  refine ⟨pitchBend b st, hcb,
    { v with freq := midi_note_to_freq n + ((b : ℝ) - 64) }, ?_, ?_, ?_, ?_, ?_⟩
  · rw [lookup_pitchBend, hv]
    rfl
  · show midi_note_to_freq n + ((b : ℝ) - 64) = _
    rw [midi_note_to_freq]; ring
  · rw [midi_note_to_freq]; ring
  · intro hb; subst hb
    show midi_note_to_freq n + (((64 : ℕ) : ℝ) - 64) = midi_note_to_freq n
    norm_num
  · intro hb; subst hb
    show midi_note_to_freq n + (((127 : ℕ) : ℝ) - 64) = midi_note_to_freq n + 63
    norm_num

/-- Concrete one-voice registry for the C8 witness: note 69 sounding on
slot 0. -/
noncomputable def c8St : SynthSt :=
  { sinks := List.replicate MAX_POLYPHONY SinkSt.idle,
    playing := [(69, { freq := 440, wave_type := WaveType.Triangle, amp_env := initAdsr,
                       sink_idx := 0, releasing := false })],
    sustained := [], log := [], wave_type := WaveType.Triangle, adsr := initAdsr }

/-- C8 witness: the hypotheses hold for `c8St`, note 69 and bend 127. -/
theorem c8_pitch_bend_witness :
    (224 ≤ 224 ∧ 224 ≤ 239 ∧
      List.lookup 69 c8St.playing =
        some { freq := 440, wave_type := WaveType.Triangle, amp_env := initAdsr,
               sink_idx := 0, releasing := false }) ∧
    (∃ st', midi_callback { status := 224, data1 := 0, data2 := 127 } c8St = .ok st' ∧
      ∃ w, List.lookup 69 st'.playing = some w ∧
        w.freq = 440 * (2 : ℝ) ^ ((((69 : ℕ) : ℝ) - 69) / 12) + (((127 : ℕ) : ℝ) - 64) ∧
        midi_note_to_freq 69 = 440 * (2 : ℝ) ^ ((((69 : ℕ) : ℝ) - 69) / 12) ∧
        (127 = 64 → w.freq = midi_note_to_freq 69) ∧
        (127 = 127 → w.freq = midi_note_to_freq 69 + 63)) :=
  ⟨⟨by norm_num, by norm_num, rfl⟩,
    c8_pitch_bend c8St 224 0 127 (by norm_num) (by norm_num) 69 _ rfl⟩

/-! ## Sustain bookkeeping lemmas -/

theorem mem_insertSet_of_mem {m n : ℕ} {s : List ℕ} (h : m ∈ s) : m ∈ insertSet n s := by
  unfold insertSet
  split
  · exact h
  · exact List.mem_cons_of_mem _ h

theorem mem_insertSet_self (n : ℕ) (s : List ℕ) : n ∈ insertSet n s := by
  unfold insertSet
  split
  · assumption
  · exact List.mem_cons_self _ _

theorem mem_insertSet {m n : ℕ} {s : List ℕ} (h : m ∈ insertSet n s) : m = n ∨ m ∈ s := by
  unfold insertSet at h
  split at h
  · exact Or.inr h
  · exact List.mem_cons.mp h

theorem mem_engageSustain_of_mem {m : ℕ} (pl : List (ℕ × Voice)) (sinks : List SinkSt) :
    ∀ sus, m ∈ sus → m ∈ engageSustain pl sinks sus := by
  induction pl with
  | nil => intro sus h; exact h
  | cons kv rest ih =>
    intro sus h
    simp only [engageSustain, List.foldl_cons]
    apply ih
    split
    · exact mem_insertSet_of_mem h
    · exact h

theorem mem_engageSustain_self (pl : List (ℕ × Voice)) (sinks : List SinkSt) {n : ℕ} {v : Voice}
    (hp : sinkAt sinks v.sink_idx ≠ SinkSt.paused) :
    ∀ sus, (n, v) ∈ pl → n ∈ engageSustain pl sinks sus := by
  induction pl with
  | nil => intro sus h; simp at h
  | cons kv rest ih =>
    intro sus h
    simp only [engageSustain, List.foldl_cons]
    rcases List.mem_cons.mp h with h1 | h1
    · subst h1
      apply mem_engageSustain_of_mem
      rw [if_pos hp]
      exact mem_insertSet_self _ _
    · exact ih _ h1

theorem mem_engageSustain_inv (pl : List (ℕ × Voice)) (sinks : List SinkSt) :
    ∀ (sus : List ℕ) (m : ℕ), m ∈ engageSustain pl sinks sus →
      m ∈ sus ∨ ∃ v, (m, v) ∈ pl := by
  induction pl with
  | nil => intro sus m h; exact Or.inl h
  | cons kv rest ih =>
    intro sus m h
    simp only [engageSustain, List.foldl_cons] at h
    rcases ih _ m h with h1 | ⟨v, hv⟩
    · split at h1
      · rcases mem_insertSet h1 with rfl | h2
        · exact Or.inr ⟨kv.2, by simp⟩
        · exact Or.inl h2
      · exact Or.inl h1
    · exact Or.inr ⟨v, List.mem_cons_of_mem _ hv⟩

/-- Correctness of the sustain-release loop: if every sustained note is
registered, no `unwrap` panics; untouched keys keep their entries, and
every sustained note ends with its `releasing` flag set. -/
theorem stopSustained_ok :
    ∀ (ns : List ℕ) (pl : List (ℕ × Voice)),
      (∀ m ∈ ns, (List.lookup m pl).isSome = true) →
      ∃ pl', stopSustained ns pl = .ok pl' ∧
        (∀ m, m ∉ ns → List.lookup m pl' = List.lookup m pl) ∧
        (∀ m ∈ ns, ∃ w, List.lookup m pl' = some w ∧ w.releasing = true) ∧
        (∀ m, (List.lookup m pl').isSome = (List.lookup m pl).isSome) := by
  intro ns
  induction ns with
  | nil =>
    intro pl _
    exact ⟨pl, rfl, fun m _ => rfl, fun m hm => absurd hm (List.not_mem_nil m), fun m => rfl⟩
  | cons n rest ih =>
    intro pl h
    have hn : (List.lookup n pl).isSome = true := h n (List.mem_cons_self _ _)
    obtain ⟨v, hv⟩ := Option.isSome_iff_exists.mp hn
    have hrest : ∀ m ∈ rest, (List.lookup m (setReleasing n pl)).isSome = true := by
      intro m hm
      rw [isSome_lookup_setReleasing]
      exact h m (List.mem_cons_of_mem _ hm)
    obtain ⟨pl', heq, huntouched, hrel, hsome⟩ := ih (setReleasing n pl) hrest
    refine ⟨pl', ?_, ?_, ?_, ?_⟩
    · simp only [stopSustained, hv]
      exact heq
    · intro m hm
      have hmn : m ≠ n := fun e => hm (e ▸ List.mem_cons_self _ _)
      have hmr : m ∉ rest := fun e => hm (List.mem_cons_of_mem _ e)
      rw [huntouched m hmr, lookup_setReleasing_ne _ hmn]
    · intro m hm
      rcases List.mem_cons.mp hm with rfl | hmr
      · by_cases hmr2 : m ∈ rest
        · exact hrel m hmr2
        · rw [huntouched m hmr2, lookup_setReleasing, hv]
          exact ⟨{ v with releasing := true }, by simp, rfl⟩
      · exact hrel m hmr
    · intro m
      rw [hsome m, isSome_lookup_setReleasing]

/-! ## C10: the sustained set stays inside the registry -/

/-- The invariant: every note in the sustained set has an entry in the
`playing_notes` registry. -/
def SusInv (st : SynthSt) : Prop :=
  ∀ m ∈ st.sustained, (List.lookup m st.playing).isSome = true

theorem susInv_noteOn (d1 : ℕ) (st : SynthSt) (h : SusInv st) : SusInv (noteOn d1 st) := by
  unfold noteOn
  rcases hl : List.lookup d1 st.playing with _ | v
  · rcases ha : allocate st.sinks with _ | i
    · simp only [hl, ha]
      exact h
    · simp only [hl, ha]
      intro x hx
      rw [lookup_cons]
      split
      · rfl
      · exact h x hx
  · simp only [hl]
    exact h

theorem susInv_noteOff (d1 : ℕ) (st : SynthSt) (h : SusInv st) : SusInv (noteOff d1 st) := by
  unfold noteOff
  rcases hl : List.lookup d1 st.playing with _ | v
  · simp only [hl]; exact h
  · simp only [hl]
    split
    · exact h
    · intro x hx
      have hxd : x ≠ d1 := by
        intro e
        subst e
        exact (by assumption : ¬ x ∈ st.sustained) hx
      rw [lookup_removeKey _ hxd]
      exact h x hx

theorem susInv_pitchBend (b : ℕ) (st : SynthSt) (h : SusInv st) : SusInv (pitchBend b st) := by
  intro x hx
  have hx' : x ∈ st.sustained := hx
  rw [lookup_pitchBend]
  have := h x hx'
  cases hl : List.lookup x st.playing
  · rw [hl] at this; simp at this
  · simp

theorem susInv_modeChange (m : MidiMsg) (st : SynthSt) (h : SusInv st) :
    ∀ st', modeChange m st = .ok st' → SusInv st' := by
  intro st' hok
  unfold modeChange at hok
  by_cases h64 : m.data1 = 64
  · rw [if_pos h64] at hok
    by_cases h127 : m.data2 = 127
    · rw [if_pos h127] at hok
      have hst : st' =
          { st with
            log := LogEvent.modeChangeShown :: st.log
            sustained := engageSustain st.playing st.sinks st.sustained } :=
        (Except.ok.inj hok).symm
      subst hst
      intro x hx
      rcases mem_engageSustain_inv st.playing st.sinks st.sustained x hx with h1 | ⟨v, hv⟩
      · exact h x h1
      · exact mem_lookup_isSome hv
    · rw [if_neg h127] at hok
      by_cases h0 : m.data2 = 0
      · rw [if_pos h0] at hok
        rcases hstop : stopSustained st.sustained st.playing with e | pl'
        · rw [hstop] at hok
          cases hok
        · rw [hstop] at hok
          have hst : st' =
              { st with
                log := LogEvent.modeChangeShown :: st.log
                playing := pl'
                sustained := [] } :=
            (Except.ok.inj hok).symm
          subst hst
          intro x hx
          simp at hx
      · rw [if_neg h0] at hok
        cases hok
  · rw [if_neg h64] at hok
    have hst : st' = { st with log := LogEvent.modeChangeShown :: st.log } :=
      (Except.ok.inj hok).symm
    subst hst
    exact h

/-- C10 (theorem, confirmed).  Every successfully handled MIDI event
preserves the invariant that the sustained set is a subset of the
registered note identifiers (note-off never removes a sustained note's
registry entry), and under that invariant the sustain-release event
always completes — the `unwrap` of each sustained note's registry
lookup cannot panic. -/
theorem c10_sustained_subset_registered (m : MidiMsg) (st : SynthSt) (hInv : SusInv st) :
    (∀ st', midi_callback m st = .ok st' → SusInv st') ∧
    (176 ≤ m.status → m.status ≤ 191 → m.data1 = 64 → m.data2 = 0 →
      ∃ st', midi_callback m st = .ok st') := by
  constructor
  · intro st' hok
    unfold midi_callback at hok
    by_cases h1 : 144 ≤ m.status ∧ m.status ≤ 159
    · rw [if_pos h1] at hok
      have hst : st' = noteOn m.data1 st := (Except.ok.inj hok).symm
      subst hst
      exact susInv_noteOn _ _ hInv
    · rw [if_neg h1] at hok
      by_cases h2 : 128 ≤ m.status ∧ m.status ≤ 143
      · rw [if_pos h2] at hok
        have hst : st' = noteOff m.data1 st := (Except.ok.inj hok).symm
        subst hst
        exact susInv_noteOff _ _ hInv
      · rw [if_neg h2] at hok
        by_cases h3 : 176 ≤ m.status ∧ m.status ≤ 191
        · rw [if_pos h3] at hok
          exact susInv_modeChange m st hInv st' hok
        · rw [if_neg h3] at hok
          by_cases h4 : 224 ≤ m.status ∧ m.status ≤ 239
          · rw [if_pos h4] at hok
            have hst : st' = pitchBend m.data2 st := (Except.ok.inj hok).symm
            subst hst
            exact susInv_pitchBend _ _ hInv
          · rw [if_neg h4] at hok
            have hst : st' = { st with log := LogEvent.unhandledShown :: st.log } :=
              (Except.ok.inj hok).symm
            subst hst
            exact hInv
  · intro hs1 hs2 hd1 hd2
    have h1 : ¬ (144 ≤ m.status ∧ m.status ≤ 159) := by omega
    have h2 : ¬ (128 ≤ m.status ∧ m.status ≤ 143) := by omega
    have h3 : 176 ≤ m.status ∧ m.status ≤ 191 := ⟨hs1, hs2⟩
    obtain ⟨pl', hstop, -, -, -⟩ := stopSustained_ok st.sustained st.playing hInv
    refine ⟨{ st with
              log := LogEvent.modeChangeShown :: st.log
              playing := pl'
              sustained := [] }, ?_⟩
    unfold midi_callback
    rw [if_neg h1, if_neg h2, if_pos h3]
    unfold modeChange
    rw [if_pos hd1, if_neg (by omega : ¬ m.data2 = 127), if_pos hd2]
    simp only [hstop]

/-- C10 witness: the empty initial state satisfies the invariant, and
the sustain-release message `[176, 64, 0]` is handled successfully. -/
theorem c10_sustained_subset_registered_witness :
    SusInv initSt ∧
    ((∀ st', midi_callback { status := 176, data1 := 64, data2 := 0 } initSt = .ok st' →
        SusInv st') ∧
      (176 ≤ (176 : ℕ) → (176 : ℕ) ≤ 191 → (64 : ℕ) = 64 → (0 : ℕ) = 0 →
        ∃ st', midi_callback { status := 176, data1 := 64, data2 := 0 } initSt = .ok st')) :=
  ⟨fun m hm => absurd hm (List.not_mem_nil m),
    c10_sustained_subset_registered { status := 176, data1 := 64, data2 := 0 } initSt
      (fun m hm => absurd hm (List.not_mem_nil m))⟩

/-! ## C7: sustain defers note-off -/

theorem midi_callback_engage (st : SynthSt) :
    midi_callback { status := 176, data1 := 64, data2 := 127 } st =
      .ok { st with
            log := LogEvent.modeChangeShown :: st.log
            sustained := engageSustain st.playing st.sinks st.sustained } := rfl

theorem midi_callback_noteOff (n : ℕ) (st : SynthSt) :
    midi_callback { status := 128, data1 := n, data2 := 0 } st = .ok (noteOff n st) := rfl

theorem midi_callback_sustain_release (st : SynthSt) :
    midi_callback { status := 176, data1 := 64, data2 := 0 } st =
      match stopSustained st.sustained st.playing with
      | .ok pl =>
        .ok { st with
              log := LogEvent.modeChangeShown :: st.log
              playing := pl
              sustained := [] }
      | .error e => .error e := rfl

/-- C7 (theorem, confirmed).  For a sounding (non-paused) registered
note `n`: after sustain engage (`[176,64,127]`) the note is in the
sustained set; a subsequent note-off for `n` returns the state
completely unchanged (so `n`'s registry entry — and its unset
`releasing` flag — survive); and a later sustain release (`[176,64,0]`)
sets the `releasing` flag of every voice in the sustained set and
clears the set. -/
theorem c7_sustain_defers_note_off (st : SynthSt) (n : ℕ) (v : Voice)
    (hreg : List.lookup n st.playing = some v)
    (hsound : sinkAt st.sinks v.sink_idx ≠ SinkSt.paused)
    (hInv : SusInv st) :
    ∃ st1 st3,
      midi_callback { status := 176, data1 := 64, data2 := 127 } st = .ok st1 ∧
      n ∈ st1.sustained ∧
      st1.playing = st.playing ∧
      midi_callback { status := 128, data1 := n, data2 := 0 } st1 = .ok st1 ∧
      midi_callback { status := 176, data1 := 64, data2 := 0 } st1 = .ok st3 ∧
      st3.sustained = [] ∧
      (∀ m ∈ st1.sustained, ∃ w, List.lookup m st3.playing = some w ∧ w.releasing = true) := by
  set st1 : SynthSt :=
    { st with
      log := LogEvent.modeChangeShown :: st.log
      sustained := engageSustain st.playing st.sinks st.sustained } with hst1
  have hmem : n ∈ st1.sustained :=
    mem_engageSustain_self st.playing st.sinks hsound st.sustained (lookup_mem hreg)
  have hInv1 : ∀ m ∈ st1.sustained, (List.lookup m st1.playing).isSome = true := by
    intro x hx
    rcases mem_engageSustain_inv st.playing st.sinks st.sustained x hx with h1 | ⟨w, hw⟩
    · exact hInv x h1
    · exact mem_lookup_isSome hw
  obtain ⟨pl', hstop, huntouched, hrel, hsome⟩ :=
    stopSustained_ok st1.sustained st1.playing hInv1
  have hoff : noteOff n st1 = st1 := by
    unfold noteOff
    have hlook : List.lookup n st1.playing = some v := hreg
    simp only [hlook]
    rw [if_pos hmem]
  have hrelease := midi_callback_sustain_release st1
  rw [hstop] at hrelease
  refine ⟨st1, _, midi_callback_engage st, hmem, rfl, ?_, hrelease, rfl, ?_⟩
  · rw [midi_callback_noteOff, hoff]
  · intro m hm
    exact hrel m hm

/-- Concrete state for the C7 witness: note 60 sounding on slot 0, no
sustain held. -/
noncomputable def c7St : SynthSt :=
  { sinks := List.replicate MAX_POLYPHONY SinkSt.idle,
    playing := [(60, { freq := 440, wave_type := WaveType.Square, amp_env := initAdsr,
                       sink_idx := 0, releasing := false })],
    sustained := [], log := [], wave_type := WaveType.Square, adsr := initAdsr }

/-- C7 witness: the hypotheses of `c7_sustain_defers_note_off` hold for
`c7St` and note 60. -/
theorem c7_sustain_defers_note_off_witness :
    (List.lookup 60 c7St.playing =
      some { freq := 440, wave_type := WaveType.Square, amp_env := initAdsr,
             sink_idx := 0, releasing := false } ∧
      sinkAt c7St.sinks 0 ≠ SinkSt.paused ∧ SusInv c7St) ∧
    (∃ st1 st3,
      midi_callback { status := 176, data1 := 64, data2 := 127 } c7St = .ok st1 ∧
      60 ∈ st1.sustained ∧
      st1.playing = c7St.playing ∧
      midi_callback { status := 128, data1 := 60, data2 := 0 } st1 = .ok st1 ∧
      midi_callback { status := 176, data1 := 64, data2 := 0 } st1 = .ok st3 ∧
      st3.sustained = [] ∧
      (∀ m ∈ st1.sustained, ∃ w, List.lookup m st3.playing = some w ∧ w.releasing = true)) :=
  ⟨⟨rfl, by decide, fun m hm => absurd hm (List.not_mem_nil m)⟩,
    c7_sustain_defers_note_off c7St 60 _ rfl (by decide)
      (fun m hm => absurd hm (List.not_mem_nil m))⟩

/-! ## C6: 17 note-ons against a 16-slot pool -/

/-- Sequential delivery of MIDI messages to `midi_callback` (processing
stops if the callback thread panics). -/
noncomputable def runMsgs : List MidiMsg → SynthSt → Except PanicKind SynthSt
  | [], st => .ok st
  | m :: rest, st =>
    match midi_callback m st with
    | .ok st' => runMsgs rest st'
    | .error e => .error e

theorem runMsgs_append (l1 l2 : List MidiMsg) (st : SynthSt) :
    runMsgs (l1 ++ l2) st =
      match runMsgs l1 st with
      | .ok st' => runMsgs l2 st'
      | .error e => .error e := by
  induction l1 generalizing st with
  | nil => rfl
  | cons m rest ih =>
    show runMsgs (m :: (rest ++ l2)) st = _
    rcases h : midi_callback m st with e | st1
    · simp only [runMsgs, h]
    · simp only [runMsgs, h]
      exact ih st1

theorem midi_callback_noteOn (n d2 : ℕ) (st : SynthSt) :
    midi_callback { status := 144, data1 := n, data2 := d2 } st = .ok (noteOn n st) := rfl

theorem firstIdx_none_iff (p : SinkSt → Bool) (l : List SinkSt) :
    firstIdx p l = none ↔ ∀ x ∈ l, p x = false := by
  induction l with
  | nil => simp [firstIdx]
  | cons s rest ih =>
    by_cases h : p s
    · simp [firstIdx, h]
    · simp [firstIdx, h, ih]

theorem firstIdx_some_get (p : SinkSt → Bool) :
    ∀ (l : List SinkSt) (i : ℕ), firstIdx p l = some i →
      ∃ x, l[i]? = some x ∧ p x = true := by
  intro l
  induction l with
  | nil => intro i h; simp [firstIdx] at h
  | cons s rest ih =>
    intro i h
    simp only [firstIdx] at h
    by_cases hp : p s
    · rw [if_pos hp] at h
      cases h
      exact ⟨s, by simp, hp⟩
    · rw [if_neg hp] at h
      rcases Option.map_eq_some'.mp h with ⟨j, hj, rfl⟩
      obtain ⟨x, hx, hpx⟩ := ih j hj
      exact ⟨x, by simpa using hx, hpx⟩

theorem firstIdx_replicate_false (p : SinkSt → Bool) (a : SinkSt) (h : p a = false) :
    ∀ m, firstIdx p (List.replicate m a) = none := by
  intro m
  induction m with
  | zero => rfl
  | succ k ih => simp [List.replicate_succ, firstIdx, h, ih]

theorem firstIdx_fill (k m : ℕ) (hm : 0 < m) :
    firstIdx (fun s => s == SinkSt.idle)
      (List.replicate k SinkSt.playing ++ List.replicate m SinkSt.idle) = some k := by
  induction k with
  | zero =>
    obtain ⟨m', rfl⟩ : ∃ m', m = m' + 1 := ⟨m - 1, by omega⟩
    simp [List.replicate_succ, firstIdx]
  | succ k ih =>
    simp only [List.replicate_succ, List.cons_append, firstIdx]
    rw [if_neg (by decide)]
    simp only [List.append_eq]
    rw [ih]
    rfl

theorem set_fill (k m : ℕ) (hm : 0 < m) :
    (List.replicate k SinkSt.playing ++ List.replicate m SinkSt.idle).set k SinkSt.playing =
      List.replicate (k + 1) SinkSt.playing ++ List.replicate (m - 1) SinkSt.idle := by
  induction k with
  | zero =>
    obtain ⟨m', rfl⟩ : ∃ m', m = m' + 1 := ⟨m - 1, by omega⟩
    simp [List.replicate_succ]
  | succ k ih =>
    simp only [List.replicate_succ, List.cons_append, List.set_cons_succ]
    rw [ih]
    simp [List.replicate_succ]

/-- The `Voice` a successful note-on builds (line 313): current global
waveform and ADSR snapshot, the allocated slot, flags cleared. -/
noncomputable def newVoice (st : SynthSt) (n : ℕ) (k : ℕ) : Voice :=
  { freq := midi_note_to_freq n, wave_type := st.wave_type, amp_env := st.adsr,
    sink_idx := k, releasing := false }

/-- Filling the pool: distinct fresh note-ons take the idle slots left
to right, one `Voice` registered per note, with no dropped note and the
log untouched. -/
theorem run_noteOns_fill :
    ∀ (ns : List ℕ) (st : SynthSt) (k : ℕ),
      st.sinks = List.replicate k SinkSt.playing ++ List.replicate (16 - k) SinkSt.idle →
      k + ns.length ≤ 16 →
      ns.Nodup →
      (∀ n ∈ ns, List.lookup n st.playing = none) →
      ∃ st' : SynthSt,
        runMsgs (ns.map (fun n => { status := 144, data1 := n, data2 := 64 })) st = .ok st' ∧
        st'.playing.length = st.playing.length + ns.length ∧
        st'.sinks = List.replicate (k + ns.length) SinkSt.playing ++
          List.replicate (16 - (k + ns.length)) SinkSt.idle ∧
        st'.log = st.log ∧
        (∀ x, x ∉ ns → List.lookup x st'.playing = List.lookup x st.playing) := by
  intro ns
  induction ns with
  | nil =>
    intro st k hs hk hnd hfresh
    exact ⟨st, rfl, by simp, by simpa using hs, rfl, fun x _ => rfl⟩
  | cons n rest ih =>
    intro st k hs hk hnd hfresh
    have hlook : List.lookup n st.playing = none := hfresh n (List.mem_cons_self _ _)
    have hml : 0 < 16 - k := by
      simp only [List.length_cons] at hk
      omega
    have halloc : allocate st.sinks = some k := by
      unfold allocate
      rw [hs, firstIdx_fill k (16 - k) hml]
    have hnoteOn : noteOn n st =
        { st with
          sinks := st.sinks.set k SinkSt.playing
          playing := (n, newVoice st n k) :: st.playing } := by
      unfold noteOn newVoice
      simp only [hlook, halloc]
    have hsinks2 : st.sinks.set k SinkSt.playing =
        List.replicate (k + 1) SinkSt.playing ++
          List.replicate (16 - (k + 1)) SinkSt.idle := by
      rw [hs, set_fill k (16 - k) hml]
      have : 16 - k - 1 = 16 - (k + 1) := by omega
      rw [this]
    obtain ⟨hn_rest, hnd_rest⟩ := List.nodup_cons.mp hnd
    have hfresh2 : ∀ x ∈ rest,
        List.lookup x ((n, newVoice st n k) :: st.playing) = none := by
      intro x hx
      have hxn : x ≠ n := by
        intro e
        subst e
        exact hn_rest hx
      rw [lookup_cons, if_neg hxn]
      exact hfresh x (List.mem_cons_of_mem _ hx)
    obtain ⟨st', hrun, hlen, hsinks', hlog, huntouched⟩ :=
      ih { st with
            sinks := st.sinks.set k SinkSt.playing
            playing := (n, newVoice st n k) :: st.playing }
        (k + 1)
        hsinks2
        (by simp only [List.length_cons] at hk; omega)
        hnd_rest
        hfresh2
    refine ⟨st', ?_, ?_, ?_, ?_, ?_⟩
    · simp only [List.map_cons, runMsgs, midi_callback_noteOn, hnoteOn]
      exact hrun
    · rw [hlen]
      simp only [List.length_cons]
      omega
    · rw [hsinks']
      have : k + 1 + rest.length = k + (n :: rest).length := by
        simp only [List.length_cons]; omega
      rw [this]
    · rw [hlog]
    · intro x hx
      have hxn : x ≠ n := fun e => hx (e ▸ List.mem_cons_self _ _)
      have hxr : x ∉ rest := fun e => hx (List.mem_cons_of_mem _ e)
      rw [huntouched x hxr, lookup_cons, if_neg hxn]

/-- C6 (theorem, confirmed).  Seventeen note-on events for seventeen
distinct notes against the all-idle 16-slot pool: exactly 16 voices end
up registered (one per slot, all 16 sinks playing) and exactly one
note-on is dropped with the "max polyphony" log line.  Moreover the
allocator prefers an idle slot, then a paused slot, and returns `none`
exactly when no slot is idle or paused. -/
theorem c6_seventeen_note_ons (notes : List ℕ) (hlen : notes.length = 17)
    (hnd : notes.Nodup) :
    (∃ st', runMsgs (notes.map (fun n => { status := 144, data1 := n, data2 := 64 })) initSt =
        .ok st' ∧
      st'.playing.length = 16 ∧
      st'.log.count LogEvent.maxPolyphony = 1 ∧
      st'.sinks = List.replicate 16 SinkSt.playing) ∧
    (∀ sinks : List SinkSt, SinkSt.idle ∈ sinks →
      ∃ i, allocate sinks = some i ∧ sinks[i]? = some SinkSt.idle) ∧
    (∀ sinks : List SinkSt, SinkSt.idle ∉ sinks → SinkSt.paused ∈ sinks →
      ∃ i, allocate sinks = some i ∧ sinks[i]? = some SinkSt.paused) ∧
    (∀ sinks : List SinkSt, SinkSt.idle ∉ sinks → SinkSt.paused ∉ sinks →
      allocate sinks = none) := by
  refine ⟨?_, ?_, ?_, ?_⟩
  · -- the 17-note run
    have hne : notes ≠ [] := by
      intro h
      rw [h] at hlen
      simp at hlen
    have hsplit : notes = notes.dropLast ++ [notes.getLast hne] :=
      (List.dropLast_append_getLast hne).symm
    have hlen16 : notes.dropLast.length = 16 := by
      rw [List.length_dropLast, hlen]
    have hnd' : (notes.dropLast ++ [notes.getLast hne]).Nodup := hsplit ▸ hnd
    have hxnot : notes.getLast hne ∉ notes.dropLast := by
      intro hx
      exact List.disjoint_of_nodup_append hnd' hx (List.mem_singleton.mpr rfl)
    have hndl16 : notes.dropLast.Nodup := (List.nodup_append.mp hnd').1
    obtain ⟨st16, hrun16, hlen16', hsinks16, hlog16, hun16⟩ :=
      run_noteOns_fill notes.dropLast initSt 0
        (by simp [initSt, MAX_POLYPHONY])
        (by omega)
        hndl16
        (fun n _ => rfl)
    have hsinks16' : st16.sinks = List.replicate 16 SinkSt.playing := by
      rw [hsinks16, hlen16]
      simp
    have hlookx : List.lookup (notes.getLast hne) st16.playing = none := by
      rw [hun16 _ hxnot]
      rfl
    have hallocx : allocate st16.sinks = none := by
      unfold allocate
      rw [hsinks16', firstIdx_replicate_false _ _ (by decide) 16,
        firstIdx_replicate_false _ _ (by decide) 16]
    have hnoteOn17 : noteOn (notes.getLast hne) st16 =
        { st16 with log := LogEvent.maxPolyphony :: st16.log } := by
      unfold noteOn
      simp only [hlookx, hallocx]
    refine ⟨{ st16 with log := LogEvent.maxPolyphony :: st16.log }, ?_, ?_, ?_, ?_⟩
    · conv_lhs => rw [hsplit]
      simp only [List.map_append, runMsgs_append, hrun16, List.map_cons, List.map_nil,
        runMsgs, midi_callback_noteOn, hnoteOn17]
    · show st16.playing.length = 16
      rw [hlen16']
      simp [initSt, hlen16]
    · show (LogEvent.maxPolyphony :: st16.log).count LogEvent.maxPolyphony = 1
      rw [hlog16]
      simp [initSt]
    · exact hsinks16'
  · -- idle preferred
    intro sinks hidle
    rcases h : firstIdx (fun s => s == SinkSt.idle) sinks with _ | i
    · exact absurd ((firstIdx_none_iff _ _).mp h SinkSt.idle hidle) (by decide)
    · obtain ⟨x, hx, hpx⟩ := firstIdx_some_get _ sinks i h
      have hxi : x = SinkSt.idle := by
        cases x <;> simp_all
      refine ⟨i, ?_, hxi ▸ hx⟩
      unfold allocate
      rw [h]
  · -- then paused
    intro sinks hnidle hpaused
    have hnone : firstIdx (fun s => s == SinkSt.idle) sinks = none := by
      rw [firstIdx_none_iff]
      intro x hx
      have : x ≠ SinkSt.idle := fun e => hnidle (e ▸ hx)
      cases x <;> simp_all
    rcases h : firstIdx (fun s => s == SinkSt.paused) sinks with _ | i
    · exact absurd ((firstIdx_none_iff _ _).mp h SinkSt.paused hpaused) (by decide)
    · obtain ⟨x, hx, hpx⟩ := firstIdx_some_get _ sinks i h
      have hxp : x = SinkSt.paused := by
        cases x <;> simp_all
      refine ⟨i, ?_, hxp ▸ hx⟩
      unfold allocate
      rw [hnone, h]
  · -- neither: allocation fails
    intro sinks hnidle hnpaused
    have hnone1 : firstIdx (fun s => s == SinkSt.idle) sinks = none := by
      rw [firstIdx_none_iff]
      intro x hx
      have : x ≠ SinkSt.idle := fun e => hnidle (e ▸ hx)
      cases x <;> simp_all
    have hnone2 : firstIdx (fun s => s == SinkSt.paused) sinks = none := by
      rw [firstIdx_none_iff]
      intro x hx
      have : x ≠ SinkSt.paused := fun e => hnpaused (e ▸ hx)
      cases x <;> simp_all
    unfold allocate
    rw [hnone1, hnone2]

/-- C6 witness: the concrete distinct 17-note sequence `0, 1, …, 16`. -/
theorem c6_seventeen_note_ons_witness :
    (List.range 17).length = 17 ∧ (List.range 17).Nodup ∧
    ((∃ st', runMsgs ((List.range 17).map
          (fun n => { status := 144, data1 := n, data2 := 64 })) initSt = .ok st' ∧
        st'.playing.length = 16 ∧
        st'.log.count LogEvent.maxPolyphony = 1 ∧
        st'.sinks = List.replicate 16 SinkSt.playing) ∧
      (∀ sinks : List SinkSt, SinkSt.idle ∈ sinks →
        ∃ i, allocate sinks = some i ∧ sinks[i]? = some SinkSt.idle) ∧
      (∀ sinks : List SinkSt, SinkSt.idle ∉ sinks → SinkSt.paused ∈ sinks →
        ∃ i, allocate sinks = some i ∧ sinks[i]? = some SinkSt.paused) ∧
      (∀ sinks : List SinkSt, SinkSt.idle ∉ sinks → SinkSt.paused ∉ sinks →
        allocate sinks = none)) :=
  ⟨List.length_range 17, List.nodup_range 17,
    c6_seventeen_note_ons (List.range 17) (List.length_range 17) (List.nodup_range 17)⟩

/-- Envelope state for the C3 witness: a voice at full amplitude whose
release is requested 10 ms (440 samples) into its life. -/
def c3WitnessSt : EnvSt :=
  { volume := 1, num_sample := 440, num_sample_released := 0, stopped := false }

/-- C3 witness: the hypotheses of `c3_release_ramp` hold for the
default ADSR and `c3WitnessSt`. -/
theorem c3_release_ramp_witness :
    (0 < initAdsr.release ∧ 0 < c3WitnessSt.num_sample ∧
      c3WitnessSt.num_sample_released = 0 ∧ c3WitnessSt.stopped = false) ∧
    ((envStep initAdsr true c3WitnessSt).volume = c3WitnessSt.volume ∧
      (∀ k, k + 1 ≤ initAdsr.release →
        (envRun initAdsr true (1 + k) c3WitnessSt).volume =
          c3WitnessSt.volume - k * release_step initAdsr) ∧
      (envRun initAdsr true initAdsr.release c3WitnessSt).stopped = false ∧
      (envRun initAdsr true (initAdsr.release + 1) c3WitnessSt).stopped = true) :=
  ⟨⟨by decide, by decide, rfl, rfl⟩,
    c3_release_ramp initAdsr c3WitnessSt (by decide) (by decide) rfl rfl⟩
